import Mathlib

/-!
Shallow embedding of the `vinzmyko/load-balancer` Go repository:
the per-backend circuit breaker (`internal/circuitbreaker/circuitbreaker.go`),
the health checker (`internal/health/checker.go`), configuration validation
(`internal/config/config.go`) and the round-robin backend selector
(`selectBackend` in the main package), together with theorems settling the
specification claims about them.

Machine integers are modelled as `Int`/`Nat` with explicit reduction modulo
`2^64` where the Go code uses `uint64` arithmetic; `time.Time`/`time.Duration`
are modelled as integers (instants and durations in nanoseconds).
-/

namespace LoadBalancer

/-! ## Circuit breaker (`internal/circuitbreaker/circuitbreaker.go`) -/

/-- `CircuitState` enum; constructor names follow the Go constants
`stateClosed`, `stateOpen`, `stateHalfOpen`. -/
inductive CircuitState where
  | stateClosed
  | stateOpen
  | stateHalfOpen
deriving DecidableEq, Repr

/-- The `CircuitBreaker` struct.  `failures` and `failureThreshold` are Go
`int`s, modelled as `Int`; `lastFailureTime` is a `time.Time` instant and
`timeout` a `time.Duration`, both modelled as `Int`. -/
structure CircuitBreaker where
  backendURL : String
  state : CircuitState
  failures : Int
  lastFailureTime : Int
  failureThreshold : Int
  timeout : Int
deriving DecidableEq, Repr

namespace CircuitBreaker

/-- `circuitbreaker.New`: a fresh breaker is Closed with zero failures.
The zero value of `time.Time` is modelled as instant `0`. -/
def New (backendURL : String) (failureThreshold : Int) (timeout : Int) :
    CircuitBreaker :=
  { backendURL := backendURL
    state := .stateClosed
    failures := 0
    lastFailureTime := 0
    failureThreshold := failureThreshold
    timeout := timeout }

/-- `CircuitBreaker.CanAttempt`, evaluated at instant `now`
(`time.Since(cb.lastFailureTime)` is `now - cb.lastFailureTime`).
Returns the boolean result together with the breaker state after the call,
since the Open branch transitions to HalfOpen in the same atomic step. -/
def CanAttempt (cb : CircuitBreaker) (now : Int) : Bool × CircuitBreaker :=
  match cb.state with
  | .stateClosed => (true, cb)
  | .stateOpen =>
      if now - cb.lastFailureTime > cb.timeout then
        (true, { cb with state := .stateHalfOpen })
      else
        (false, cb)
  | .stateHalfOpen => (true, cb)

/-- `CircuitBreaker.RecordSuccess`: resets the failure count and sets the
state to Closed (unconditionally, whatever the current state). -/
def RecordSuccess (cb : CircuitBreaker) : CircuitBreaker :=
  { cb with failures := 0, state := .stateClosed }

/-- `CircuitBreaker.RecordFailure` at instant `now`: increments `failures`,
stamps `lastFailureTime`, then opens the circuit if the state was HalfOpen
or the failure count reached the threshold. -/
def RecordFailure (cb : CircuitBreaker) (now : Int) : CircuitBreaker :=
  let cb' := { cb with failures := cb.failures + 1, lastFailureTime := now }
  if cb'.state = .stateHalfOpen then
    { cb' with state := .stateOpen }
  else if cb'.failures ≥ cb'.failureThreshold then
    { cb' with state := .stateOpen }
  else
    cb'

/-- Fold `RecordFailure` over a list of failure instants. -/
def applyFailures (cb : CircuitBreaker) (times : List Int) : CircuitBreaker :=
  times.foldl (fun c t => c.RecordFailure t) cb

end CircuitBreaker

/-! ## Health checker (`internal/health/checker.go`) -/

/-- The Go `map[int]bool` modelled as an association list; later stores
shadow earlier ones. -/
def HealthMap := List (Int × Bool)

/-- Store `m[k] = v` in a Go map. -/
def mapStore (m : HealthMap) (k : Int) (v : Bool) : HealthMap :=
  (k, v) :: m

/-- Read `m[k]` from a Go map: a missing key yields the zero value `false`. -/
def mapGet (m : HealthMap) (k : Int) : Bool :=
  match List.find? (fun e => e.1 == k) m with
  | some e => e.2
  | none => false

/-- The health `Checker` struct: only the shared status map matters for the
pure read API (the mutex and stop channels carry no data). -/
structure Checker where
  healthStatus : HealthMap

/-- `health.NewChecker`: `for i := range backendCount` stores `true` for
every index in `[0, backendCount)`; a non-positive count iterates zero
times. -/
def NewChecker (backendCount : Int) : Checker :=
  { healthStatus :=
      (List.range backendCount.toNat).foldl
        (fun m i => mapStore m (Int.ofNat i) true) [] }

/-- `Checker.IsHealthy`: a pure read of the shared map. -/
def Checker.IsHealthy (hc : Checker) (idx : Int) : Bool :=
  mapGet hc.healthStatus idx

/-- Outcome of the single HTTP probe issued by `checkHealth`: either the
request errors (connection failure or timeout) or a response arrives
carrying a status code. -/
inductive ProbeOutcome where
  | connError
  | response (statusCode : Int)
deriving DecidableEq, Repr

/-- `health.checkHealth`: `err != nil` maps to unhealthy, otherwise the
probe is healthy exactly when `resp.StatusCode == 200`. -/
def checkHealth (outcome : ProbeOutcome) : Bool :=
  match outcome with
  | .connError => false
  | .response statusCode => statusCode == 200

/-! ## Configuration (`internal/config/config.go`) -/

/-- `config.ServerConfig`. -/
structure ServerConfig where
  Port : Int
deriving DecidableEq, Repr

/-- `config.BackendConfig`. -/
structure BackendConfig where
  URL : String
  Weight : Int
deriving DecidableEq, Repr

/-- `config.Config`. -/
structure Config where
  Server : ServerConfig
  Backends : List BackendConfig
deriving DecidableEq, Repr

/-- The per-backend loop inside `Config.Validate`, in source order:
an empty URL is reported before a non-positive weight. -/
def validateBackends : List BackendConfig → Option String
  | [] => none
  | b :: rest =>
      if b.URL = "" then some "backend server is empty"
      else if b.Weight ≤ 0 then some "backend server has a negative weight"
      else validateBackends rest

/-- `Config.Validate`: `some msg` models a non-nil `error`. -/
def Config.Validate (cfg : Config) : Option String :=
  let isValidServerPort := cfg.Server.Port ≥ 1 && cfg.Server.Port ≤ 65535
  let hasAtLeastOneBackendServer := cfg.Backends.length > 0
  if !isValidServerPort then some "invalid port: must be 1-65535"
  else if !hasAtLeastOneBackendServer then
    some "needs to have at least one backend server"
  else validateBackends cfg.Backends

/-- `config.Load` after the file I/O: `parsed` is the combined outcome of
`os.ReadFile` and `yaml.Unmarshal` (an `error` short-circuits), and a
validation error is wrapped and returned. -/
def Load (parsed : Except String Config) : Except String Config :=
  match parsed with
  | .error e => .error ("failed to read or unmarshal config: " ++ e)
  | .ok cfg =>
      match cfg.Validate with
      | some e => .error ("config validation failed: " ++ e)
      | none => .ok cfg

/-! ## Selector (`selectBackend` in the main package)

The rotation cursor is a `uint64`: `atomic.AddUint64` wraps modulo `2^64`,
and `next + uint64(i)` is `uint64` addition.  The slice of circuit breakers
is modelled as a total function on indices (only indices `< backendCount`
are ever touched), the health checker by its `IsHealthy` read. -/

/-- `2^64`, the modulus of Go `uint64` arithmetic. -/
def U64 : Nat := 2 ^ 64

/-- The scan loop of `selectBackend` over the remaining offsets: skip a
candidate that is unhealthy, then skip one whose breaker cannot attempt
(threading the breaker state mutated by `CanAttempt`), and return the first
candidate passing both checks. -/
def scanBackends (next n : Nat) (isHealthy : Nat → Bool) (now : Int) :
    List Nat → (Nat → CircuitBreaker) → Option Nat × (Nat → CircuitBreaker)
  | [], bs => (none, bs)
  | i :: rest, bs =>
      let idx := ((next + i) % U64) % n
      if isHealthy idx = false then
        scanBackends next n isHealthy now rest bs
      else
        let r := (bs idx).CanAttempt now
        let bs' := Function.update bs idx r.2
        if r.1 = false then
          scanBackends next n isHealthy now rest bs'
        else
          (some idx, bs')

/-- `selectBackend`: increment the shared `uint64` cursor to obtain `next`,
scan offsets `0, …, n-1`, and fall back to `next % n` when no candidate is
eligible.  Returns the selected index, the new cursor value and the new
breaker states. -/
def selectBackend (counter n : Nat) (isHealthy : Nat → Bool)
    (breakers : Nat → CircuitBreaker) (now : Int) :
    Nat × Nat × (Nat → CircuitBreaker) :=
  let next := (counter + 1) % U64
  match scanBackends next n isHealthy now (List.range n) breakers with
  | (some idx, bs') => (idx, next, bs')
  | (none, bs') => (next % n, next, bs')

/-- Modelled from the spec: the selection algorithm exactly as the claim
words it — "for offsets i = 0, 1, …, backendCount-1 in that order examines
candidate (next + i) mod backendCount", with `next + i` read as unbounded
integer addition.  Returns the first candidate that is healthy and whose
breaker can attempt, or `none` when the full scan finds no candidate. -/
def selectBackendSpec (counter n : Nat) (isHealthy : Nat → Bool)
    (breakers : Nat → CircuitBreaker) (now : Int) : Option Nat :=
  let next := (counter + 1) % U64
  (List.range n).findSome? fun i =>
    let candidate := (next + i) % n
    if isHealthy candidate && ((breakers candidate).CanAttempt now).1 then
      some candidate
    else
      none

/-- Modelled from the spec, amended: the same algorithm with the candidate
computed in `uint64` arithmetic, `candidate = ((next + i) mod 2^64) mod
backendCount`, matching the cursor's word size. -/
def selectBackendSpecU64 (counter n : Nat) (isHealthy : Nat → Bool)
    (breakers : Nat → CircuitBreaker) (now : Int) : Option Nat :=
  let next := (counter + 1) % U64
  (List.range n).findSome? fun i =>
    let candidate := ((next + i) % U64) % n
    if isHealthy candidate && ((breakers candidate).CanAttempt now).1 then
      some candidate
    else
      none

/-- A run of `M` consecutive `selectBackend` calls, threading the cursor and
the breaker states; returns the list of selected indices in call order. -/
def runSelections (counter n : Nat) (isHealthy : Nat → Bool)
    (breakers : Nat → CircuitBreaker) (now : Int) : Nat → List Nat
  | 0 => []
  | M + 1 =>
      let r := selectBackend counter n isHealthy breakers now
      r.1 :: runSelections r.2.1 n isHealthy r.2.2 now M

/-- `selectBackend` as wired in `main`: the proxy slice it scans has one
entry per configured backend, so `backendCount = len(cfg.Backends)`; no
other part of the configuration (in particular no weight) reaches the
selector. -/
def selectBackendFromConfig (cfg : Config) (counter : Nat)
    (isHealthy : Nat → Bool) (breakers : Nat → CircuitBreaker) (now : Int) :
    Nat × Nat × (Nat → CircuitBreaker) :=
  selectBackend counter cfg.Backends.length isHealthy breakers now

/-- The circuit state transitions actually possible in the code: the state
is unchanged, or it moves along one of the edges Closed→Open,
Open→HalfOpen, HalfOpen→Closed, HalfOpen→Open, or — via `RecordSuccess`
while Open — directly Open→Closed. -/
def allowedEdge (pre post : CircuitState) : Prop :=
  pre = post ∨
  (pre = .stateClosed ∧ post = .stateOpen) ∨
  (pre = .stateOpen ∧ post = .stateHalfOpen) ∨
  (pre = .stateHalfOpen ∧ post = .stateClosed) ∨
  (pre = .stateHalfOpen ∧ post = .stateOpen) ∨
  (pre = .stateOpen ∧ post = .stateClosed)

/-! ## Circuit breaker lemmas and claim theorems -/

/-- `CanAttempt` leaves the breaker unchanged whenever it returns `false`. -/
theorem canAttempt_false_fix (cb : CircuitBreaker) (now : Int)
    (h : (cb.CanAttempt now).1 = false) : (cb.CanAttempt now).2 = cb := by
  unfold CircuitBreaker.CanAttempt at h ⊢
  cases hs : cb.state <;> simp [hs] at h ⊢
  split at h <;> simp_all
  rw [if_neg (by omega)]

/-- `RecordFailure` preserves the configured threshold and timeout. -/
theorem recordFailure_params (cb : CircuitBreaker) (now : Int) :
    (cb.RecordFailure now).failureThreshold = cb.failureThreshold ∧
    (cb.RecordFailure now).timeout = cb.timeout := by
  simp only [CircuitBreaker.RecordFailure]
  split
  · exact ⟨rfl, rfl⟩
  split
  · exact ⟨rfl, rfl⟩
  · exact ⟨rfl, rfl⟩

/-- A closed breaker strictly below its threshold stays closed through a
sequence of failures, accumulating their count. -/
theorem applyFailures_closed (ts : List Int) : ∀ cb : CircuitBreaker,
    cb.state = .stateClosed →
    cb.failures + ts.length < cb.failureThreshold →
    (cb.applyFailures ts).state = .stateClosed ∧
    (cb.applyFailures ts).failures = cb.failures + ts.length ∧
    (cb.applyFailures ts).failureThreshold = cb.failureThreshold ∧
    (cb.applyFailures ts).timeout = cb.timeout := by
  induction ts with
  | nil => intro cb hs _; simp [CircuitBreaker.applyFailures, hs]
  | cons t rest ih =>
      intro cb hs hcount
      have h2 : ¬ (cb.failures + 1 ≥ cb.failureThreshold) := by
        have hnn : (rest.length : Int) ≥ 0 := Int.ofNat_nonneg _
        simp only [List.length_cons] at hcount
        push_cast at hcount
        omega
      have hrec : cb.RecordFailure t = { cb with failures := cb.failures + 1, lastFailureTime := t } := by
        simp [CircuitBreaker.RecordFailure, hs, h2]
      have step : cb.applyFailures (t :: rest) =
          (cb.RecordFailure t).applyFailures rest := rfl
      rw [step, hrec]
      have := ih { cb with failures := cb.failures + 1, lastFailureTime := t }
        (by simp [hs])
        (by simp only [List.length_cons] at hcount; push_cast at hcount ⊢; omega)
      simp only [List.length_cons] at *
      push_cast at this ⊢
      constructor
      · exact this.1
      constructor
      · rw [this.2.1]; ring
      · exact this.2.2

/-- C2 counterexample: from the reachable Open state (one recorded failure
with `failureThreshold = 1`), `RecordSuccess` moves the breaker directly
back to Closed — a transition outside the four claimed edges. -/
theorem recordSuccess_open_to_closed_cex :
    ((CircuitBreaker.New "backend" 1 30).RecordFailure 0).state =
      CircuitState.stateOpen ∧
    (((CircuitBreaker.New "backend" 1 30).RecordFailure 0).RecordSuccess).state =
      CircuitState.stateClosed := by
  constructor <;> rfl

/-- C2 (amended): every operation either leaves the state unchanged or moves
it along one of the five edges Closed→Open, Open→HalfOpen, HalfOpen→Closed,
HalfOpen→Open, or Open→Closed (the last one taken by `RecordSuccess` while
Open). -/
theorem circuit_transitions_allowed (cb : CircuitBreaker) (now : Int) :
    allowedEdge cb.state ((cb.CanAttempt now).2).state ∧
    allowedEdge cb.state cb.RecordSuccess.state ∧
    allowedEdge cb.state (cb.RecordFailure now).state := by
  refine ⟨?_, ?_, ?_⟩
  · unfold CircuitBreaker.CanAttempt
    cases hs : cb.state <;> simp [hs, allowedEdge]
    split <;> simp_all [allowedEdge]
  · cases hs : cb.state <;> simp [CircuitBreaker.RecordSuccess, hs, allowedEdge]
  · cases hs : cb.state
    · unfold CircuitBreaker.RecordFailure
      simp only
      rw [if_neg (by simp [hs])]
      split <;> simp [allowedEdge, hs]
    · unfold CircuitBreaker.RecordFailure
      simp only
      rw [if_neg (by simp [hs])]
      split <;> simp [allowedEdge, hs]
    · unfold CircuitBreaker.RecordFailure
      simp only
      rw [if_pos (by simp [hs])]
      simp [allowedEdge, hs]

/-- C5: starting Closed with positive threshold `t`, exactly `t` consecutive
failures open the circuit and `CanAttempt` is false while no more than
`openDuration` has elapsed since the last failure; a success before the
threshold resets the counter to zero and stays Closed. -/
theorem circuit_opens_at_threshold (url : String) (t d now : Int)
    (ht : 0 < t) (ts : List Int) (hlen : (ts.length : Int) = t) :
    ((CircuitBreaker.New url t d).applyFailures ts).state =
      CircuitState.stateOpen ∧
    (now - ((CircuitBreaker.New url t d).applyFailures ts).lastFailureTime ≤ d →
      ((((CircuitBreaker.New url t d).applyFailures ts).CanAttempt now).1 = false)) ∧
    (∀ ts' : List Int, (ts'.length : Int) < t →
      (((CircuitBreaker.New url t d).applyFailures ts').RecordSuccess).failures = 0 ∧
      (((CircuitBreaker.New url t d).applyFailures ts').RecordSuccess).state =
        CircuitState.stateClosed) := by
  have hne : ts ≠ [] := by
    intro hnil; rw [hnil] at hlen; simp at hlen; omega
  obtain ⟨init, last, hsplit⟩ := (List.eq_nil_or_concat ts).resolve_left hne
  have hinitlen : (init.length : Int) = t - 1 := by
    rw [hsplit] at hlen; simp at hlen; omega
  have hrun := applyFailures_closed init (CircuitBreaker.New url t d)
    (by rfl) (by simp [CircuitBreaker.New]; omega)
  have happ : (CircuitBreaker.New url t d).applyFailures ts =
      ((CircuitBreaker.New url t d).applyFailures init).RecordFailure last := by
    rw [hsplit]
    unfold CircuitBreaker.applyFailures
    rw [List.concat_eq_append, List.foldl_append]
    rfl
  set cbi := (CircuitBreaker.New url t d).applyFailures init with hcbi
  have hthr : cbi.failureThreshold = t := by
    rw [hrun.2.2.1]; rfl
  have hfail : cbi.failures = t - 1 := by
    rw [hrun.2.1]; simp [CircuitBreaker.New]; omega
  have htimeout : cbi.timeout = d := by
    rw [hrun.2.2.2]; rfl
  have hopen : cbi.RecordFailure last =
      { cbi with failures := cbi.failures + 1, lastFailureTime := last,
                 state := CircuitState.stateOpen } := by
    unfold CircuitBreaker.RecordFailure
    have hns : ¬ (cbi.state = CircuitState.stateHalfOpen) := by
      rw [hrun.1]; simp
    have hge : cbi.failures + 1 ≥ cbi.failureThreshold := by
      rw [hfail, hthr]; omega
    simp [hns, hge]
  refine ⟨?_, ?_, ?_⟩
  · rw [happ, hopen]
  · intro hle
    rw [happ, hopen] at hle ⊢
    unfold CircuitBreaker.CanAttempt
    simp only
    rw [if_neg (by simp_all)]
  · intro ts' hlt
    have hrun' := applyFailures_closed ts' (CircuitBreaker.New url t d)
      (by rfl) (by simp [CircuitBreaker.New]; omega)
    exact ⟨rfl, rfl⟩

/-- C5 witness: threshold 2, two failures at instants 3 and 7 open the
circuit and block an attempt at instant 10; one failure then a success
leaves the breaker Closed with zero failures. -/
theorem circuit_opens_at_threshold_witness :
    ((CircuitBreaker.New "u" 2 30).applyFailures [3, 7]).state =
      CircuitState.stateOpen ∧
    ((((CircuitBreaker.New "u" 2 30).applyFailures [3, 7]).CanAttempt 10).1 = false) ∧
    (((CircuitBreaker.New "u" 2 30).applyFailures [5]).RecordSuccess).failures = 0 ∧
    (((CircuitBreaker.New "u" 2 30).applyFailures [5]).RecordSuccess).state =
      CircuitState.stateClosed := by
  have h := circuit_opens_at_threshold "u" 2 30 10 (by decide) [3, 7] (by decide)
  exact ⟨h.1, h.2.1 (by decide), (h.2.2 [5] (by decide)).1, (h.2.2 [5] (by decide)).2⟩

/-- C6: while Open, `CanAttempt` is false (and mutation-free) until more
than `openDuration` has elapsed since the last failure; once elapsed it
returns true and enters HalfOpen in the same step; from HalfOpen a failure
returns to Open re-stamping the timestamp and a success moves to Closed
with the counter reset. -/
theorem circuit_open_recovery (cb : CircuitBreaker) (now : Int) :
    (cb.state = CircuitState.stateOpen → now - cb.lastFailureTime ≤ cb.timeout →
      (cb.CanAttempt now).1 = false ∧ (cb.CanAttempt now).2 = cb) ∧
    (cb.state = CircuitState.stateOpen → now - cb.lastFailureTime > cb.timeout →
      (cb.CanAttempt now).1 = true ∧
      ((cb.CanAttempt now).2).state = CircuitState.stateHalfOpen) ∧
    (cb.state = CircuitState.stateHalfOpen →
      (cb.RecordFailure now).state = CircuitState.stateOpen ∧
      (cb.RecordFailure now).lastFailureTime = now) ∧
    (cb.state = CircuitState.stateHalfOpen →
      cb.RecordSuccess.state = CircuitState.stateClosed ∧
      cb.RecordSuccess.failures = 0) := by
  refine ⟨?_, ?_, ?_, ?_⟩
  · intro hs hle
    unfold CircuitBreaker.CanAttempt
    simp only [hs]
    rw [if_neg (by omega)]
    exact ⟨rfl, rfl⟩
  · intro hs hgt
    unfold CircuitBreaker.CanAttempt
    simp only [hs]
    rw [if_pos (by omega)]
    exact ⟨rfl, rfl⟩
  · intro hs
    unfold CircuitBreaker.RecordFailure
    simp [hs]
  · intro hs
    exact ⟨rfl, rfl⟩

/-- C6 witness: a concrete Open breaker (last failure at 0, timeout 30) is
blocked at instant 10 and admitted at 50 entering HalfOpen; a concrete
HalfOpen breaker reopens on failure at 60 and closes with zero failures on
success. -/
theorem circuit_open_recovery_witness :
    ((CircuitBreaker.mk "u" CircuitState.stateOpen 3 0 3 30).CanAttempt 10).1 = false ∧
    ((CircuitBreaker.mk "u" CircuitState.stateOpen 3 0 3 30).CanAttempt 50).1 = true ∧
    (((CircuitBreaker.mk "u" CircuitState.stateOpen 3 0 3 30).CanAttempt 50).2).state =
      CircuitState.stateHalfOpen ∧
    ((CircuitBreaker.mk "u" CircuitState.stateHalfOpen 3 0 3 30).RecordFailure 60).state =
      CircuitState.stateOpen ∧
    ((CircuitBreaker.mk "u" CircuitState.stateHalfOpen 3 0 3 30).RecordFailure 60).lastFailureTime = 60 ∧
    ((CircuitBreaker.mk "u" CircuitState.stateHalfOpen 3 0 3 30).RecordSuccess).state =
      CircuitState.stateClosed ∧
    ((CircuitBreaker.mk "u" CircuitState.stateHalfOpen 3 0 3 30).RecordSuccess).failures = 0 := by
  have h1 := circuit_open_recovery (CircuitBreaker.mk "u" CircuitState.stateOpen 3 0 3 30) 10
  have h2 := circuit_open_recovery (CircuitBreaker.mk "u" CircuitState.stateOpen 3 0 3 30) 50
  have h3 := circuit_open_recovery (CircuitBreaker.mk "u" CircuitState.stateHalfOpen 3 0 3 30) 60
  exact ⟨(h1.1 rfl (by decide)).1, (h2.2.1 rfl (by decide)).1, (h2.2.1 rfl (by decide)).2,
    (h3.2.2.1 rfl).1, (h3.2.2.1 rfl).2, (h3.2.2.2 rfl).1, (h3.2.2.2 rfl).2⟩

/-! ## Health checker lemmas and claim theorems -/

/-- Reading after `mapStore`: the stored key yields the stored value. -/
theorem mapGet_mapStore (m : HealthMap) (k : Int) (v : Bool) (i : Int) :
    mapGet (mapStore m k v) i = if k == i then v else mapGet m i := by
  unfold mapGet mapStore
  rw [List.find?_cons]
  by_cases h : (k == i)
  · simp [h]
  · simp [h]

/-- Lookup after folding stores of `true` over a list of `Nat` keys. -/
theorem mapGet_foldl_store (l : List Nat) : ∀ (init : HealthMap) (i : Int),
    mapGet (l.foldl (fun m j => mapStore m (Int.ofNat j) true) init) i =
      (l.any (fun j => Int.ofNat j == i) || mapGet init i) := by
  induction l with
  | nil => intro init i; simp
  | cons j rest ih =>
      intro init i
      rw [List.foldl_cons, ih, List.any_cons, mapGet_mapStore]
      cases hj : (Int.ofNat j == i) <;> simp_all [beq_iff_eq]

/-- C10: a freshly constructed checker reports healthy exactly on the
indices `[0, backendCount)` that the constructor initialised; every other
index reads the map's zero value `false`. -/
theorem newChecker_initially_healthy (backendCount i : Int) :
    (NewChecker backendCount).IsHealthy i = true ↔
      0 ≤ i ∧ i < backendCount := by
  unfold NewChecker Checker.IsHealthy
  rw [mapGet_foldl_store]
  rw [show mapGet [] i = false from rfl]
  rw [Bool.or_false, List.any_eq_true]
  constructor
  · rintro ⟨j, hj, hji⟩
    rw [List.mem_range] at hj
    have hji' : (j : Int) = i := by simpa using hji
    omega
  · rintro ⟨h0, hlt⟩
    refine ⟨i.toNat, ?_, ?_⟩
    · rw [List.mem_range]; omega
    · simp only [beq_iff_eq]
      exact Int.toNat_of_nonneg h0

/-- C3 counterexample: status 201 lies in `[200, 300)` yet the probe
classifies the backend as unhealthy, because the code tests
`StatusCode == 200` rather than the whole 2xx class. -/
theorem checkHealth_2xx_cex :
    ((200 : Int) ≤ 201 ∧ (201 : Int) < 300) ∧
      checkHealth (ProbeOutcome.response 201) = false := by
  decide

/-- C3 (amended): a timeout or connection failure maps to unhealthy, a
response with status exactly 200 maps to healthy, and every other status
(including the rest of the 2xx class) maps to unhealthy. -/
theorem checkHealth_classification :
    checkHealth ProbeOutcome.connError = false ∧
    ∀ statusCode : Int,
      (checkHealth (ProbeOutcome.response statusCode) = true ↔
        statusCode = 200) := by
  refine ⟨rfl, ?_⟩
  intro s
  simp [checkHealth]

/-! ## Configuration claim theorems -/

/-- The backend loop of `Validate` errors exactly when some backend has an
empty URL or a non-positive weight. -/
theorem validateBackends_isSome (l : List BackendConfig) :
    (validateBackends l).isSome = true ↔
      ∃ b ∈ l, b.URL = "" ∨ b.Weight ≤ 0 := by
  induction l with
  | nil => simp [validateBackends]
  | cons b rest ih =>
      unfold validateBackends
      by_cases h1 : b.URL = ""
      · simp [h1]
      · by_cases h2 : b.Weight ≤ 0
        · simp [h1, h2]
        · simp [h1, h2, ih]

/-- C7: validation fails iff the port is outside `[1, 65535]`, the backend
list is empty, some URL is empty, or some weight is non-positive; and
`Load` on a successfully parsed configuration succeeds iff `Validate`
reports no error. -/
theorem config_validation_iff (cfg : Config) :
    ((cfg.Validate).isSome = true ↔
      (cfg.Server.Port < 1 ∨ cfg.Server.Port > 65535 ∨ cfg.Backends = [] ∨
        ∃ b ∈ cfg.Backends, b.URL = "" ∨ b.Weight ≤ 0)) ∧
    (Load (Except.ok cfg) = Except.ok cfg ↔ cfg.Validate = none) := by
  constructor
  · unfold Config.Validate
    by_cases hp : cfg.Server.Port ≥ 1 ∧ cfg.Server.Port ≤ 65535
    · rw [if_neg (by simp [hp.1, hp.2])]
      by_cases hb : cfg.Backends = []
      · rw [if_pos (by simp [hb])]
        simp only [Option.isSome_some, true_iff]
        exact Or.inr (Or.inr (Or.inl hb))
      · have hlen : cfg.Backends.length > 0 := by
          cases hc : cfg.Backends
          · exact absurd hc hb
          · simp [hc]
        rw [if_neg (by simp [hlen])]
        rw [validateBackends_isSome]
        constructor
        · intro h; exact Or.inr (Or.inr (Or.inr h))
        · rintro (h | h | h | h)
          · omega
          · omega
          · exact absurd h hb
          · exact h
    · rw [if_pos (by push_neg at hp; by_cases h1 : cfg.Server.Port ≥ 1 <;> simp_all)]
      simp only [Option.isSome_some, true_iff]
      push_neg at hp
      by_cases h1 : cfg.Server.Port ≥ 1
      · exact Or.inr (Or.inl (by have := hp h1; omega))
      · exact Or.inl (by omega)
  · unfold Load
    cases hv : cfg.Validate <;> simp [hv]

/-! ## Selector lemmas and claim theorems -/

/-- The scan loop's selected index is the first offset whose candidate is
healthy and admitted by its breaker, evaluated against the breaker states
at call time (skipped candidates never mutate a breaker). -/
theorem scanBackends_fst (next n : Nat) (isHealthy : Nat → Bool) (now : Int) :
    ∀ (l : List Nat) (bs : Nat → CircuitBreaker),
    (scanBackends next n isHealthy now l bs).1 =
      l.findSome? (fun i =>
        let c := ((next + i) % U64) % n
        if isHealthy c && ((bs c).CanAttempt now).1 then some c else none) := by
  intro l
  induction l with
  | nil => intro bs; rfl
  | cons i rest ih =>
      intro bs
      rw [List.findSome?_cons]
      simp only [scanBackends]
      by_cases hh : isHealthy (((next + i) % U64) % n) = false
      · rw [if_pos hh, ih]
        simp [hh]
      · have hh' : isHealthy (((next + i) % U64) % n) = true := by
          revert hh; cases isHealthy (((next + i) % U64) % n) <;> simp
        rw [if_neg hh]
        cases hc : ((bs (((next + i) % U64) % n)).CanAttempt now).1
        · rw [if_pos rfl]
          rw [canAttempt_false_fix _ _ hc, Function.update_eq_self, ih]
          simp [hh']
        · rw [if_neg (by simp)]
          simp [hh']

/-- C1: `selectBackend` always returns an index in `[0, n)` for every
combination of health and circuit states, and returns `next mod n` (for the
freshly incremented cursor `next`) when the full scan finds no eligible
candidate. -/
theorem selectBackend_in_range (counter n : Nat) (isHealthy : Nat → Bool)
    (breakers : Nat → CircuitBreaker) (now : Int) (hn : 0 < n) :
    (selectBackend counter n isHealthy breakers now).1 < n ∧
    ((scanBackends ((counter + 1) % U64) n isHealthy now (List.range n)
        breakers).1 = none →
      (selectBackend counter n isHealthy breakers now).1 =
        ((counter + 1) % U64) % n) := by
  unfold selectBackend
  simp only
  have h := scanBackends_fst ((counter + 1) % U64) n isHealthy now
    (List.range n) breakers
  cases hscan : scanBackends ((counter + 1) % U64) n isHealthy now
      (List.range n) breakers with
  | mk fst snd =>
      rw [hscan] at h
      cases fst with
      | none => exact ⟨Nat.mod_lt _ hn, fun _ => rfl⟩
      | some idx =>
          constructor
          · obtain ⟨i, _, hi⟩ := List.exists_of_findSome?_eq_some h.symm
            simp only at hi
            split at hi
            · cases hi; exact Nat.mod_lt _ hn
            · cases hi
          · intro hnone
            simp at hnone

/-- C1 witness: three backends, none eligible — the result is still the
in-range fallback index. -/
theorem selectBackend_in_range_witness :
    (selectBackend 0 3 (fun _ => false)
      (fun _ => CircuitBreaker.New "u" 3 30) 0).1 < 3 ∧
    ((scanBackends ((0 + 1) % U64) 3 (fun _ => false) 0 (List.range 3)
        (fun _ => CircuitBreaker.New "u" 3 30)).1 = none →
      (selectBackend 0 3 (fun _ => false)
        (fun _ => CircuitBreaker.New "u" 3 30) 0).1 = ((0 + 1) % U64) % 3) :=
  selectBackend_in_range 0 3 (fun _ => false)
    (fun _ => CircuitBreaker.New "u" 3 30) 0 (by decide)

/-- C4 counterexample: with the cursor at `2^64 - 2` and three backends of
which only index 2 is healthy (all breakers closed), the claim's candidate
sequence `(next + i) mod 3` visits 0, 1, 2 and would return 2, but the code
computes `(next + uint64(i))` with wraparound, examines index 0 twice and
index 1 once, never examines index 2, and falls back to index 0. -/
theorem selectBackend_candidate_order_cex :
    (selectBackend (2 ^ 64 - 2) 3 (fun i => i == 2)
      (fun _ => CircuitBreaker.New "u" 3 30) 0).1 = 0 ∧
    selectBackendSpec (2 ^ 64 - 2) 3 (fun i => i == 2)
      (fun _ => CircuitBreaker.New "u" 3 30) 0 = some 2 := by
  constructor <;> rfl

/-- C4 (amended): `selectBackend` advances the shared cursor by 1 modulo
`2^64` to obtain `next`, and returns the first candidate
`((next + i) mod 2^64) mod n` over offsets `i = 0, …, n-1` in order that is
healthy and whose breaker's `CanAttempt` returns true, falling back to
`next mod n` when no candidate passes. -/
theorem selectBackend_refines_spec (counter n : Nat) (isHealthy : Nat → Bool)
    (breakers : Nat → CircuitBreaker) (now : Int) :
    (selectBackend counter n isHealthy breakers now).2.1 =
      (counter + 1) % U64 ∧
    (selectBackend counter n isHealthy breakers now).1 =
      (selectBackendSpecU64 counter n isHealthy breakers now).getD
        (((counter + 1) % U64) % n) := by
  unfold selectBackend selectBackendSpecU64
  simp only
  have h := scanBackends_fst ((counter + 1) % U64) n isHealthy now
    (List.range n) breakers
  cases hscan : scanBackends ((counter + 1) % U64) n isHealthy now
      (List.range n) breakers with
  | mk fst snd =>
      rw [hscan] at h
      cases fst with
      | none => rw [← h]; exact ⟨rfl, rfl⟩
      | some idx => rw [← h]; exact ⟨rfl, rfl⟩

/-- C9: the weight field never influences selection — two configurations
with the same URLs (hence the same backend count wired into the selector)
but different positive weights yield the same selected index from equal
cursor, health and circuit states. -/
theorem weight_ignored (cfg1 cfg2 : Config) (counter : Nat)
    (isHealthy : Nat → Bool) (breakers : Nat → CircuitBreaker) (now : Int)
    (hurl : cfg1.Backends.map BackendConfig.URL =
      cfg2.Backends.map BackendConfig.URL)
    (_hw1 : ∀ b ∈ cfg1.Backends, 0 < b.Weight)
    (_hw2 : ∀ b ∈ cfg2.Backends, 0 < b.Weight) :
    (selectBackendFromConfig cfg1 counter isHealthy breakers now).1 =
    (selectBackendFromConfig cfg2 counter isHealthy breakers now).1 := by
  have hlen : cfg1.Backends.length = cfg2.Backends.length := by
    have h := congrArg List.length hurl
    simpa using h
  unfold selectBackendFromConfig
  rw [hlen]

/-- C9 witness: two two-backend configurations differing only in weights
(1,2 versus 7,9) select the same index. -/
theorem weight_ignored_witness :
    (selectBackendFromConfig ⟨⟨8080⟩, [⟨"http://a", 1⟩, ⟨"http://b", 2⟩]⟩ 0
      (fun _ => true) (fun _ => CircuitBreaker.New "u" 3 30) 0).1 =
    (selectBackendFromConfig ⟨⟨8080⟩, [⟨"http://a", 7⟩, ⟨"http://b", 9⟩]⟩ 0
      (fun _ => true) (fun _ => CircuitBreaker.New "u" 3 30) 0).1 :=
  weight_ignored ⟨⟨8080⟩, [⟨"http://a", 1⟩, ⟨"http://b", 2⟩]⟩
    ⟨⟨8080⟩, [⟨"http://a", 7⟩, ⟨"http://b", 9⟩]⟩ 0
    (fun _ => true) (fun _ => CircuitBreaker.New "u" 3 30) 0
    rfl (by decide) (by decide)

/-! ## Round-robin fairness (C8) -/

/-- When `CanAttempt` admits a request, its post-state still admits one:
Closed and HalfOpen are untouched, and an Open breaker past its timeout
moves to HalfOpen, which admits. -/
theorem canAttempt_true_post (cb : CircuitBreaker) (now : Int)
    (h : (cb.CanAttempt now).1 = true) :
    (((cb.CanAttempt now).2).CanAttempt now).1 = true := by
  unfold CircuitBreaker.CanAttempt at h ⊢
  cases hs : cb.state <;> simp [hs] at h ⊢
  split at h <;> simp_all

/-- With every index healthy and every breaker admitting (`CanAttempt`
true), the very first candidate `next % n` is selected, the cursor
advances by one modulo `2^64`, and the only breaker touched is the
selected one, replaced by its `CanAttempt` post-state. -/
theorem selectBackend_all_eligible (counter n : Nat) (isHealthy : Nat → Bool)
    (bs : Nat → CircuitBreaker) (now : Int) (hn : 0 < n)
    (hh : ∀ i, i < n → isHealthy i = true)
    (hca : ∀ i, i < n → ((bs i).CanAttempt now).1 = true) :
    selectBackend counter n isHealthy bs now =
      (((counter + 1) % U64) % n, (counter + 1) % U64,
        Function.update bs (((counter + 1) % U64) % n)
          (((bs (((counter + 1) % U64) % n)).CanAttempt now).2)) := by
  obtain ⟨m, rfl⟩ : ∃ m, n = m + 1 := ⟨n - 1, by omega⟩
  have hU : 0 < U64 := by norm_num [U64]
  have hle : (counter + 1) % U64 < U64 := Nat.mod_lt _ hU
  have hidx : (((counter + 1) % U64 + 0) % U64) % (m + 1) =
      ((counter + 1) % U64) % (m + 1) := by
    rw [Nat.add_zero, Nat.mod_eq_of_lt hle]
  have hlt : ((counter + 1) % U64) % (m + 1) < m + 1 :=
    Nat.mod_lt _ (Nat.succ_pos m)
  unfold selectBackend
  rw [List.range_succ_eq_map]
  simp only [scanBackends, hidx]
  rw [if_neg (by rw [hh _ hlt]; simp)]
  rw [if_neg (by rw [hca _ hlt]; simp)]

/-- Under all-eligible conditions (healthy, breakers admitting) a run of
`M` calls starting at cursor `counter` selects
`((counter + 1 + j) mod 2^64) mod n` on its `j`-th call; eligibility is
preserved step to step because an admitted breaker's post-state still
admits. -/
theorem runSelections_all_eligible (n : Nat) (isHealthy : Nat → Bool)
    (now : Int) (hn : 0 < n)
    (hh : ∀ i, i < n → isHealthy i = true) :
    ∀ (M counter : Nat) (bs : Nat → CircuitBreaker),
    (∀ i, i < n → ((bs i).CanAttempt now).1 = true) →
    runSelections counter n isHealthy bs now M =
      (List.range M).map (fun j => ((counter + 1 + j) % U64) % n) := by
  intro M
  induction M with
  | zero => intro counter bs _; rfl
  | succ M ih =>
      intro counter bs hca
      rw [runSelections]
      rw [selectBackend_all_eligible counter n isHealthy bs now hn hh hca]
      simp only
      have hca' : ∀ i, i < n →
          (((Function.update bs (((counter + 1) % U64) % n)
              (((bs (((counter + 1) % U64) % n)).CanAttempt now).2)) i).CanAttempt
            now).1 = true := by
        intro i hi
        by_cases hieq : i = ((counter + 1) % U64) % n
        · subst hieq
          rw [Function.update_same]
          exact canAttempt_true_post _ _ (hca _ hi)
        · rw [Function.update_noteq hieq]
          exact hca _ hi
      rw [ih ((counter + 1) % U64) _ hca']
      rw [List.range_succ_eq_map]
      simp only [List.map_cons, List.map_map]
      have htail : List.map (fun j => ((counter + 1) % U64 + 1 + j) % U64 % n)
          (List.range M) =
          List.map ((fun j => (counter + 1 + j) % U64 % n) ∘ Nat.succ)
            (List.range M) := by
        refine List.map_congr_left ?_
        intro j _
        simp only [Function.comp_apply, Nat.succ_eq_add_one]
        have harith : ((counter + 1) % U64 + 1 + j) % U64 =
            (counter + 1 + (j + 1)) % U64 := by
          rw [Nat.add_assoc, Nat.mod_add_mod]
          congr 1
          omega
        rw [harith]
      rw [htail, Nat.add_zero]

/-- Over one full cycle of `n` consecutive values, the residue map
`j ↦ (d + j) mod n` hits each `b < n` exactly once. -/
theorem countP_mod_cycle (n d b : Nat) (hb : b < n) :
    (List.range n).countP (fun j => (d + j) % n == b) = 1 := by
  have hn : 0 < n := lt_of_le_of_lt (Nat.zero_le b) hb
  have hrlt : d % n < n := Nat.mod_lt _ hn
  have hj0lt : (b + n - d % n) % n < n := Nat.mod_lt _ hn
  have hexist : (d + (b + n - d % n) % n) % n = b := by
    rw [Nat.add_mod_mod]
    have hq := Nat.div_add_mod d n
    have hg : (d / n + 1) * n = n * (d / n) + n := by ring
    have harith : d + (b + n - d % n) = b + (d / n + 1) * n := by omega
    rw [harith, Nat.add_mul_mod_self_right, Nat.mod_eq_of_lt hb]
  have huniq : ∀ j, j < n → ((d + j) % n = b ↔ j = (b + n - d % n) % n) := by
    intro j hj
    constructor
    · intro hjb
      have h1 : (d + j) % n = (d + (b + n - d % n) % n) % n := by
        rw [hjb, hexist]
      have h2 : j ≡ (b + n - d % n) % n [MOD n] :=
        Nat.ModEq.add_left_cancel' d h1
      have h3 : j % n = ((b + n - d % n) % n) % n := h2
      rwa [Nat.mod_eq_of_lt hj, Nat.mod_eq_of_lt hj0lt] at h3
    · intro h
      rw [h]
      exact hexist
  have hcongr : ∀ j ∈ List.range n,
      (((d + j) % n == b) = true ↔ (j == (b + n - d % n) % n) = true) := by
    intro j hj
    rw [List.mem_range] at hj
    simp only [beq_iff_eq]
    exact huniq j hj
  rw [List.countP_congr hcongr]
  exact List.count_eq_one_of_mem (List.nodup_range n) (List.mem_range.mpr hj0lt)

/-- Over `k` full cycles, each residue `b < n` is hit exactly `k` times. -/
theorem countP_mod_range_mul (k n d b : Nat) (hb : b < n) :
    (List.range (k * n)).countP (fun j => (d + j) % n == b) = k := by
  induction k with
  | zero => simp
  | succ k ih =>
      have hsplit : (k + 1) * n = k * n + n := by ring
      rw [hsplit, List.range_add, List.countP_append, ih, List.countP_map]
      have hcongr : ∀ j ∈ List.range n,
          (((fun j => (d + j) % n == b) ∘ fun x => k * n + x) j = true ↔
            ((d + j) % n == b) = true) := by
        intro j _
        simp only [Function.comp_apply, beq_iff_eq]
        have harith : d + (k * n + j) = d + j + k * n := by ring
        rw [harith, Nat.add_mul_mod_self_right]
      rw [List.countP_congr hcongr, countP_mod_cycle n d b hb]

/-- C8 counterexample: with the cursor at `2^64 - 2` (the `uint64` cursor
wraps inside the window) and three continuously-eligible backends, a window
of `M = 1 × 3` consecutive calls selects backend 0 twice and backend 2
never — not exactly once each as claimed. -/
theorem roundRobin_wrap_cex :
    runSelections (2 ^ 64 - 2) 3 (fun _ => true)
      (fun _ => CircuitBreaker.New "u" 3 30) 0 3 = [0, 0, 1] ∧
    (runSelections (2 ^ 64 - 2) 3 (fun _ => true)
      (fun _ => CircuitBreaker.New "u" 3 30) 0 3).count 2 = 0 := by
  constructor <;> rfl

/-- C8 (amended): when every backend is eligible — healthy with a circuit
whose `CanAttempt` admits the request — and the window of `M = k·n` cursor
values does not wrap around `2^64`, the run is pure round-robin — the
`j`-th call returns `(counter + 1 + j) mod n`, the cursor advancing by
exactly one per call — and each backend `b < n` is selected exactly `k`
times. -/
theorem roundRobin_equal_counts (counter n k b : Nat) (isHealthy : Nat → Bool)
    (bs : Nat → CircuitBreaker) (now : Int)
    (hh : ∀ i, i < n → isHealthy i = true)
    (hca : ∀ i, i < n → ((bs i).CanAttempt now).1 = true)
    (hb : b < n) (hnowrap : counter + k * n < U64) :
    runSelections counter n isHealthy bs now (k * n) =
      (List.range (k * n)).map (fun j => (counter + 1 + j) % n) ∧
    (runSelections counter n isHealthy bs now (k * n)).count b = k := by
  have hn : 0 < n := lt_of_le_of_lt (Nat.zero_le b) hb
  have hrun := runSelections_all_eligible n isHealthy now hn hh
    (k * n) counter bs hca
  have heq : runSelections counter n isHealthy bs now (k * n) =
      (List.range (k * n)).map (fun j => (counter + 1 + j) % n) := by
    rw [hrun]
    refine List.map_congr_left ?_
    intro j hj
    rw [List.mem_range] at hj
    have hlt2 : counter + 1 + j < U64 := by omega
    rw [Nat.mod_eq_of_lt hlt2]
  refine ⟨heq, ?_⟩
  rw [heq]
  show (List.map (fun j => (counter + 1 + j) % n) (List.range (k * n))).countP
    (· == b) = k
  rw [List.countP_map]
  exact countP_mod_range_mul k n (counter + 1) b hb

/-- C8 witness: two backends whose breakers are HalfOpen (not Closed, yet
admitting), a window of `2 × 2` calls from cursor 0 — the run is
`[1, 0, 1, 0]` and backend 0 is selected exactly twice. -/
theorem roundRobin_equal_counts_witness :
    runSelections 0 2 (fun _ => true)
      (fun _ => CircuitBreaker.mk "u" CircuitState.stateHalfOpen 3 0 3 30) 0
      (2 * 2) =
      (List.range (2 * 2)).map (fun j => (0 + 1 + j) % 2) ∧
    (runSelections 0 2 (fun _ => true)
      (fun _ => CircuitBreaker.mk "u" CircuitState.stateHalfOpen 3 0 3 30) 0
      (2 * 2)).count 0 = 2 :=
  roundRobin_equal_counts 0 2 2 0 (fun _ => true)
    (fun _ => CircuitBreaker.mk "u" CircuitState.stateHalfOpen 3 0 3 30) 0
    (fun _ _ => rfl) (fun _ _ => rfl) (by decide) (by norm_num [U64])

end LoadBalancer
